import Mathlib

/-
Verification of the bonzai command-tree dispatch engine (Go sources:
z/cmd.go, z/bonzai.go, comp/standard.go) against its natural-language
specification.  The Go code is shallowly embedded: the `Cmd` struct
becomes an inductive with one field per struct field that the verified
claims depend on; Go `nil`/empty slices are both modelled as `[]`; Go
maps are modelled as association lists built in insertion order with a
front-insertion so that later writes shadow earlier ones, exactly as a
Go map overwrite does; the optional `Call` method and `Completer`
override are modelled by presence booleans because no verified claim
executes their bodies; process exit is modelled by a result type whose
`exitError` constructor stands for `ExitError` (diagnostic + status 1,
with `DoNotExit` unset).
-/

/-- One command node of the rooted tree (Go struct `Cmd` in z/cmd.go).
Field order: Name, Aliases, Commands, Params, Hidden, Call (presence of
the Method), Completer (presence of the override), MinArgs, MinParm,
MaxParm, ReqConf, and the runtime alias cache `_aliases` (rebuilt from
`Commands` by `cacheAliases`; Go zero value is the empty map). -/
inductive Cmd : Type where
  | mk : String → List String → List Cmd → List String → List String →
         Bool → Bool → Nat → Nat → Nat → Bool →
         List (String × Cmd) → Cmd

def Cmd.Name : Cmd → String
  | .mk n _ _ _ _ _ _ _ _ _ _ _ => n

def Cmd.Aliases : Cmd → List String
  | .mk _ a _ _ _ _ _ _ _ _ _ _ => a

def Cmd.Commands : Cmd → List Cmd
  | .mk _ _ cs _ _ _ _ _ _ _ _ _ => cs

def Cmd.Params : Cmd → List String
  | .mk _ _ _ p _ _ _ _ _ _ _ _ => p

def Cmd.Hidden : Cmd → List String
  | .mk _ _ _ _ h _ _ _ _ _ _ _ => h

def Cmd.Call : Cmd → Bool
  | .mk _ _ _ _ _ c _ _ _ _ _ _ => c

def Cmd.Completer : Cmd → Bool
  | .mk _ _ _ _ _ _ cp _ _ _ _ _ => cp

def Cmd.MinArgs : Cmd → Nat
  | .mk _ _ _ _ _ _ _ ma _ _ _ _ => ma

def Cmd.MinParm : Cmd → Nat
  | .mk _ _ _ _ _ _ _ _ mp _ _ _ => mp

def Cmd.MaxParm : Cmd → Nat
  | .mk _ _ _ _ _ _ _ _ _ mx _ _ => mx

def Cmd.ReqConf : Cmd → Bool
  | .mk _ _ _ _ _ _ _ _ _ _ rc _ => rc

def Cmd.aliasesCache : Cmd → List (String × Cmd)
  | .mk _ _ _ _ _ _ _ _ _ _ _ m => m

/-- Linear membership scan over a string list, mirroring the Go loops in
`IsHidden` and `Param` (z/cmd.go). -/
def containsStr : List String → String → Bool
  | [], _ => false
  | a :: rest, n => if a == n then true else containsStr rest n

/-- Lookup in the modelled `_aliases` map.  The map is an association
list whose head is the most recent write, so this first-match scan
returns the value of the last Go map assignment for the key. -/
def lookupCache : String → List (String × Cmd) → Option Cmd
  | _, [] => none
  | n, (k, c) :: rest => if k == n then some c else lookupCache n rest

/-- The inner loop of `cacheAliases` (z/cmd.go lines 137-144): every
alias of child `c` is written to the map; writes are modelled by
front-insertion so that later writes shadow earlier ones. -/
def insertAliases (c : Cmd) (m : List (String × Cmd)) : List (String × Cmd) :=
  c.Aliases.foldl (fun acc a => (a, c) :: acc) m

/-- The body of `cacheAliases`: a fresh map populated from the children
in declaration order. -/
def buildAliases (cs : List Cmd) : List (String × Cmd) :=
  cs.foldl (fun acc c => insertAliases c acc) []

/-- `cacheAliases` (z/cmd.go lines 132-145): rebuilds the node's own
`_aliases` map from its children.  `Run` calls this only on the
invocation root; descendants keep their zero-value (empty) cache. -/
def Cmd.cacheAliases : Cmd → Cmd
  | .mk n a cs p h c cp ma mp mx rc _ =>
      .mk n a cs p h c cp ma mp mx rc (buildAliases cs)

/-- `Resolve` (z/cmd.go lines 294-307): exact child-name match in
declaration order first, then the node's `_aliases` cache; `nil`
`Commands` returns `nil` immediately. -/
def Cmd.Resolve (x : Cmd) (n : String) : Option Cmd :=
  if x.Commands.isEmpty then none
  else
    match x.Commands.find? (fun c => c.Name == n) with
    | some c => some c
    | none => lookupCache n x.aliasesCache

/-- `Seek` (z/cmd.go lines 371-386): greedily consume tokens while they
resolve as a child of the current node; stop at the first failure and
return the current node with all remaining tokens.  The transient
`Caller` write is a back-reference used only for display and
configuration keys and is not observed by the verified claims, so it is
not threaded here. -/
def Cmd.Seek : Cmd → List String → Cmd × List String
  | x, [] => (x, [])
  | x, a :: rest =>
    match x.Resolve a with
    | none => (x, a :: rest)
    | some next => Cmd.Seek next rest

/-- Lookup in the process-wide shorthand table `Z.Aliases`
(z/bonzai.go), a Go map from a leading token to replacement tokens. -/
def lookupStrs : String → List (String × List String) → Option (List String)
  | _, [] => none
  | n, (k, v) :: rest => if k == n then some v else lookupStrs n rest

/-- The shorthand-expansion step of `Run` (z/cmd.go lines 173-182):
when `os.Args` has a second element that is a registered shorthand, the
replacement tokens are spliced in after the program name and the
remaining arguments are appended unexpanded. -/
def expandAlias (aliases : List (String × List String)) (osArgs : List String) :
    List String :=
  match osArgs with
  | prog :: a1 :: rest =>
    match lookupStrs a1 aliases with
    | some repl => prog :: (repl ++ rest)
    | none => prog :: a1 :: rest
  | other => other

/-- The resolution pipeline of a non-completion `Run` (z/cmd.go lines
167-209): cache the root's aliases, expand a leading shorthand, then
`Seek` over `os.Args[1:]`. -/
def runSeek (aliases : List (String × List String)) (x : Cmd)
    (osArgs : List String) : Cmd × List String :=
  (x.cacheAliases).Seek ((expandAlias aliases osArgs).drop 1)

/-- Modelled from the spec: `UsageGroup` is repository code outside the
provided sources (referenced by `InferredUsage` and `UsageNames`).  Per
section 4.5 it renders a group of names as a parenthesized alternation
with min/max repetition notation.  No verified claim depends on its
output; it only keeps the non-ERROR branches of `InferredUsage` total
and deterministic. -/
def UsageGroup (names : List String) (minN maxN : Nat) : String :=
  match names.filter (fun s => !(s == "")) with
  | [] => ""
  | ns =>
    "(" ++ String.intercalate ("|") ns ++ ")" ++
      (if minN == 1 && maxN == 1 then ""
       else "\x7b" ++ toString minN ++ "," ++ toString maxN ++ "\x7d")

/-- `UsageNames` (z/cmd.go line 74): the aliases then the name, rendered
as one usage group. -/
def Cmd.UsageNames (x : Cmd) : String :=
  UsageGroup (x.Aliases ++ [x.Name]) 1 1

/-- `InferredUsage` (z/bonzai.go lines 108-145): the default usage
summary; an invalid node (Params without Call, or neither Call nor
Commands) yields a brace-wrapped ERROR string instead. -/
def InferredUsage (x : Cmd) : String :=
  if !x.Call && x.Commands.isEmpty then
    "\x7bERROR: neither Call nor Commands defined\x7d"
  else if !x.Call && !x.Params.isEmpty then
    "\x7bERROR: Params without Call: " ++ String.intercalate (", ") x.Params ++ "\x7d"
  else
    let params := UsageGroup x.Params x.MinParm x.MaxParm
    let names :=
      if x.Commands.isEmpty then ""
      else UsageGroup (x.Commands.map Cmd.UsageNames) 1 1
    if !(params == "") && !(names == "") then "(" ++ params ++ "|" ++ names ++ ")"
    else if !(params == "") then params
    else names

/-- `UsageError` (z/cmd.go lines 251-257) with the default `UsageText`
("usage") and the default `UsageFunc` (`InferredUsage`); no per-command
`UsageFunc` override is registered in any verified scenario. -/
def usageErrorMsg (x : Cmd) : String :=
  "usage" ++ ": " ++ x.Name ++ " " ++ InferredUsage x

/-- `ReqConfError` (z/cmd.go lines 263-268); `%q` rendered as plain
double quotes, which agrees with Go for names without escapes. -/
def reqConfErrorMsg (n : String) : String :=
  "cmd \"" ++ n ++ "\" requires a configurer (Z.Conf must be assigned)"

/-- `Unimplemented` (z/cmd.go lines 271-273). -/
def unimplementedMsg (n : String) : String :=
  "\"" ++ n ++ "\" has not yet been implemented"

/-- The error of z/cmd.go line 219 when the first child of an
action-less target has no `Call` of its own. -/
def defaultCallErrorMsg : String :=
  "default commands require Call function"

/-- Terminal states of one dispatch cycle.  `exitError msg` models
`ExitError(err)`: the message is logged and the process exits with
status 1.  `called name args` models reaching `cmd.Call(cmd, args...)`:
the effective target's Method is invoked with exactly `args`; its own
result then decides the final status, which is outside this model. -/
inductive RunOutcome : Type where
  | exitError : String → RunOutcome
  | called : String → List String → RunOutcome
deriving DecidableEq

/-- The process exit status forced by the dispatcher itself: `some 1`
for every `ExitError` branch, `none` when the action runs (the action's
returned error then selects `Exit()` or `ExitError`). -/
def exitStatus : RunOutcome → Option Nat
  | .exitError _ => some 1
  | .called _ _ => none

/-- The argument-count, configuration and delegation steps of `Run`
(z/cmd.go lines 228-243) for an effective target `cmd` with a `Call`:
usage error when too few residual args, configuration error when the
invoking root `x` requires configuration and none is assigned, else the
Method is invoked with the residual args. -/
def afterTarget (confAssigned : Bool) (x cmd : Cmd) (args : List String) :
    RunOutcome :=
  if args.length < cmd.MinArgs then .exitError (usageErrorMsg cmd)
  else if x.ReqConf && !confAssigned then .exitError (reqConfErrorMsg cmd.Name)
  else .called cmd.Name args

/-- The post-`Seek` half of `Run` (z/cmd.go lines 214-243): `x` is the
invoking root, `cmd` the node returned by `Seek`, `args` the residual
arguments.  A target without `Call` falls back to its first child when
that child has a `Call`, errors with `defaultCallErrorMsg` when it does
not, and errors with `x.Unimplemented()` when there are no children. -/
def dispatchResolved (confAssigned : Bool) (x cmd : Cmd) (args : List String) :
    RunOutcome :=
  if cmd.Call then afterTarget confAssigned x cmd args
  else
    match cmd.Commands with
    | fcmd :: _ =>
      if fcmd.Call then afterTarget confAssigned x fcmd args
      else .exitError defaultCallErrorMsg
    | [] => .exitError (unimplementedMsg x.Name)

/-- The effective target selected by the default-child fallback of
z/cmd.go lines 215-226, when one exists. -/
def effectiveTarget (cmd : Cmd) : Option Cmd :=
  if cmd.Call then some cmd
  else
    match cmd.Commands with
    | fcmd :: _ => if fcmd.Call then some fcmd else none
    | [] => none

/-- One entry of a `Z.Commands` multicall value list (z/bonzai.go line
65): the Go `[]any` values are a `*Cmd` or a string. -/
inductive MVal : Type where
  | ccmd : Cmd → MVal
  | cstr : String → MVal

/-- The type-assertion loop of multicall `Run` (z/bonzai.go lines
166-173): collect the literal strings, failing on the first non-string
value. -/
def collectStrings : List MVal → Except String (List String)
  | [] => .ok []
  | .cstr s :: rest =>
    match collectStrings rest with
    | .ok l => .ok (s :: l)
    | .error e => .error e
  | .ccmd _ :: _ => .error ("only string arguments allowed")

/-- Lookup in the `Z.Commands` multicall table. -/
def lookupMVals : String → List (String × List MVal) → Option (List MVal)
  | _, [] => none
  | n, (k, v) :: rest => if k == n then some v else lookupMVals n rest

/-- Multicall `Run` (z/bonzai.go lines 155-181).  `.ok (c, osArgs)`
means `os.Args` was set to `osArgs` and `c.Run()` was invoked (followed
by `Exit()`); `.error msg` means `ExitError(msg)` terminated the
process with status 1.  Note the source appends the real invocation
arguments only inside the `len(v) > 1` branch. -/
def multicallRun (table : List (String × List MVal)) (exeName : String)
    (realArgs : List String) : Except String (Cmd × List String) :=
  match lookupMVals exeName table with
  | some v =>
    match v with
    | [] => .error ("multicall command missing")
    | v0 :: vrest =>
      match v0 with
      | .cstr _ => .error ("first value must be *Cmd")
      | .ccmd c =>
        match vrest with
        | [] => .ok (c, [c.Name])
        | _ :: _ =>
          match collectStrings vrest with
          | .ok strs => .ok (c, c.Name :: (strs ++ realArgs))
          | .error e => .error e
  | none => .error ("unmapped multicall command: " ++ exeName)

/-- Character-list prefix test: first argument is the candidate
prefix. -/
def listStartsWith : List Char → List Char → Bool
  | [], _ => true
  | _ :: _, [] => false
  | a :: as, b :: bs => if a == b then listStartsWith as bs else false

/-- Go `strings.HasPrefix(s, pre)`, as used by `filt.HasPrefix`. -/
def strStartsWith (s pre : String) : Bool :=
  listStartsWith pre.toList s.toList

/-- `CmdNames` (z/cmd.go lines 310-319): the names of the children,
skipping empty names, in declaration order. -/
def Cmd.CmdNames (x : Cmd) : List String :=
  (x.Commands.filter (fun c => !(c.Name == ""))).map Cmd.Name

/-- `comp.Standard` (comp/standard.go lines 25-48).  `none` models the
delegation to a node's own `Completer` override, whose body is external
to this model; otherwise: with no argument tokens the node's own name
is the sole suggestion, else the visible child names and params are
filtered by the first token as a literal prefix.  (The source's second
`len(args) == 0` test is unreachable and has no counterpart here.) -/
def Standard (x : Cmd) (args : List String) : Option (List String) :=
  if x.Completer then none
  else
    match args with
    | [] => some [x.Name]
    | a :: _ =>
      let list := x.CmdNames ++ x.Params
      let list := list.filter (fun s => !(containsStr x.Hidden s))
      some (list.filter (fun s => strStartsWith s a))

/-- The whitespace class of Go's `strings.Fields` (`unicode.IsSpace`),
restricted to the ASCII range; all verified inputs are ASCII. -/
def goIsSpace (c : Char) : Bool :=
  c == ' ' || c == '\t' || c == '\n' || c == Char.ofNat 11 ||
    c == Char.ofNat 12 || c == '\r'

/-- Accumulator pass of `strings.Fields`: split into maximal runs of
non-space characters.  The first argument is the reversed current
field. -/
def goFieldsAux : List Char → List Char → List String
  | cur, [] => if cur.isEmpty then [] else [String.mk cur.reverse]
  | cur, c :: rest =>
    if goIsSpace c then
      if cur.isEmpty then goFieldsAux [] rest
      else String.mk cur.reverse :: goFieldsAux [] rest
    else goFieldsAux (c :: cur) rest

/-- Go `strings.Fields`. -/
def goFields (line : String) : List String :=
  goFieldsAux [] line.toList

/-- `ArgsFrom` (z/bonzai.go lines 235-245): split the completion line
into fields and append one empty token when the final byte is a space
character.  (A UTF-8 trailing byte equal to 0x20 is always the one-byte
character `' '`, so the byte test is modelled on the final char.) -/
def ArgsFrom (line : String) : List String :=
  if line == "" then []
  else
    let args := goFields line
    if line.toList.getLast? == some ' ' then args ++ [""] else args

/-- The tokenizer as the claim states it: the trailing empty token is
appended when the line ends in ANY whitespace character.  Kept only for
comparison with `ArgsFrom`, which tests for the space character alone. -/
def argsFromClaim (line : String) : List String :=
  if line == "" then []
  else
    let args := goFields line
    match line.toList.getLast? with
    | some c => if goIsSpace c then args ++ [""] else args
    | none => args

/-- Result of one `Q` call (z/cmd.go lines 418-424): the returned
string, the diagnostic logged via `log.Printf` when the configurer is
missing, and the dotted path forwarded to `Conf.Query` when it is not.
`Q` always returns normally; no branch terminates the process. -/
structure QOut : Type where
  value : String
  logged : Option String
  queried : Option String
deriving DecidableEq

/-- `Q` (z/cmd.go lines 418-424).  `conf` models `Z.Conf` (`none` when
unassigned); `pathStr` stands for `x.PathString()`, whose caller-chain
state is orthogonal to the configurer check; `n` is the command name
used in the diagnostic. -/
def Q (conf : Option (String → String)) (n pathStr q : String) : QOut :=
  match conf with
  | none => ⟨"", some (reqConfErrorMsg n), none⟩
  | some query => ⟨query (pathStr ++ "." ++ q), none, some (pathStr ++ "." ++ q)⟩

/-- The last-declared child carrying `n` as one of its aliases: the
value a Go map write loop leaves behind for key `n`. -/
def lastAliased (n : String) : List Cmd → Option Cmd
  | [] => none
  | c :: rest =>
    match lastAliased n rest with
    | some d => some d
    | none => if containsStr c.Aliases n then some c else none

/-- Demo tree for C1: a grandchild reachable by name `sub` then alias
`z`; every node starts with the Go zero-value (empty) alias cache. -/
def c1gz : Cmd := .mk ("gz") [("z")] [] [] [] true false 0 0 0 false []

def c1sub : Cmd := .mk ("sub") [] [c1gz] [] [] false false 0 0 0 false []

def c1top : Cmd := .mk ("top") [] [c1sub] [] [] false false 0 0 0 false []

/-- Demo siblings for C2: both declare the alias `x`. -/
def c2one : Cmd := .mk ("one") [("x")] [] [] [] true false 0 0 0 false []

def c2two : Cmd := .mk ("two") [("x")] [] [] [] true false 0 0 0 false []

def c2root : Cmd := .mk ("r2") [] [c2one, c2two] [] [] false false 0 0 0 false []

/-- Demo root for the C2 witness: a child named `kid`, and a child that
is the only alias carrier of `zz`. -/
def c2wkid : Cmd := .mk ("kid") [] [] [] [] true false 0 0 0 false []

def c2wal : Cmd := .mk ("wal") [("zz")] [] [] [] true false 0 0 0 false []

def c2wroot : Cmd := .mk ("wr") [] [c2wkid, c2wal] [] [] false false 0 0 0 false []

/-- Demo tree and shorthand table for the C3 witness, following the
spec's own example: `co ↦ [checkout, main]`. -/
def c3main : Cmd := .mk ("main") [] [] [] [] true false 0 0 0 false []

def c3checkout : Cmd := .mk ("checkout") [] [c3main] [] [] true false 0 0 0 false []

def c3git : Cmd := .mk ("git") [] [c3checkout] [] [] false false 0 0 0 false []

def c3al : List (String × List String) := [(("co"), [("checkout"), ("main")])]

/-- Demo table for the C3 counterexample: the replacement token `b` is
itself a registered shorthand. -/
def c3xb : Cmd := .mk ("b") [] [] [] [] true false 0 0 0 false []

def c3xc : Cmd := .mk ("c") [] [] [] [] true false 0 0 0 false []

def c3xroot : Cmd := .mk ("r") [] [c3xb, c3xc] [] [] false false 0 0 0 false []

def c3xal : List (String × List String) := [(("a"), [("b")]), (("b"), [("c")])]

/-- Demo leaf for the C4 witness: an action with `MinArgs = 2`. -/
def c4leaf : Cmd := .mk ("leaf") [] [] [] [] true false 2 0 0 false []

def c4x : Cmd := .mk ("x4") [] [c4leaf] [] [] false false 0 0 0 false []

/-- Demo nodes for C5: `nilnode` has neither action nor children. -/
def c5nil : Cmd := .mk ("nilnode") [] [] [] [] false false 0 0 0 false []

def c5x : Cmd := .mk ("xroot") [] [c5nil] [] [] false false 0 0 0 false []

/-- Demo nodes for C6: the effective target requires configuration but
the invoking root does not. -/
def c6child : Cmd := .mk ("child") [] [] [] [] true false 0 0 0 true []

def c6root : Cmd := .mk ("root6") [] [c6child] [] [] false false 0 0 0 false []

/-- Demo nodes for the C6 witness: the invoking root requires
configuration. -/
def c6wchild : Cmd := .mk ("wchild") [] [] [] [] true false 0 0 0 false []

def c6wroot : Cmd := .mk ("wroot") [] [c6wchild] [] [] false false 0 0 0 true []

/-- Multicall demo: `tool` maps to a bare root command, `tool2` maps to
the same root plus one prepended literal string. -/
def c7root : Cmd := .mk ("groot") [] [] [] [] true false 0 0 0 false []

def c7table : List (String × List MVal) :=
  [(("tool"), [MVal.ccmd c7root]), (("tool2"), [MVal.ccmd c7root, MVal.cstr ("pre")])]

/-- Demo root for the C8 witness, following the spec's example: children
`build` and `test`, no completer override. -/
def c8build : Cmd := .mk ("build") [] [] [] [] true false 0 0 0 false []

def c8test : Cmd := .mk ("test") [] [] [] [] true false 0 0 0 false []

def c8root : Cmd := .mk ("rootname") [] [c8build, c8test] [] [] false false 0 0 0 false []

theorem lookupCache_insertAliases (c : Cmd) (n : String) :
    ∀ (as : List String) (m : List (String × Cmd)),
      lookupCache n (as.foldl (fun acc a => (a, c) :: acc) m) =
        if containsStr as n then some c else lookupCache n m := by
  intro as
  induction as with
  | nil => intro m; rfl
  | cons a as ih =>
    intro m
    simp only [List.foldl_cons, containsStr]
    rw [ih]
    rcases Bool.eq_false_or_eq_true (a == n) with h | h <;>
      simp only [lookupCache, h] <;>
      cases h2 : containsStr as n <;> simp

theorem lookupCache_buildAliases_gen (n : String) :
    ∀ (cs : List Cmd) (m : List (String × Cmd)),
      lookupCache n (cs.foldl (fun acc c => insertAliases c acc) m) =
        match lastAliased n cs with
        | some d => some d
        | none => lookupCache n m := by
  intro cs
  induction cs with
  | nil => intro m; rfl
  | cons c cs ih =>
    intro m
    simp only [List.foldl_cons, lastAliased]
    rw [ih, insertAliases, lookupCache_insertAliases]
    cases hl : lastAliased n cs <;> cases hc : containsStr c.Aliases n <;> simp

theorem lookupCache_buildAliases (n : String) (cs : List Cmd) :
    lookupCache n (buildAliases cs) = lastAliased n cs := by
  rw [buildAliases, lookupCache_buildAliases_gen]
  cases hl : lastAliased n cs <;> simp [lookupCache]

theorem Commands_cacheAliases (x : Cmd) : (x.cacheAliases).Commands = x.Commands := by
  cases x; rfl

theorem aliasesCache_cacheAliases (x : Cmd) :
    (x.cacheAliases).aliasesCache = buildAliases x.Commands := by
  cases x; rfl

/-- `Resolve` on a node whose alias cache has just been rebuilt (the
state `Run` establishes for the invocation root): exact name first in
declaration order, then the last-declared alias carrier. -/
theorem Resolve_cacheAliases (x : Cmd) (n : String) :
    (x.cacheAliases).Resolve n =
      match x.Commands.find? (fun c => c.Name == n) with
      | some c => some c
      | none => lastAliased n x.Commands := by
  rw [Cmd.Resolve, Commands_cacheAliases, aliasesCache_cacheAliases]
  cases hcs : x.Commands with
  | nil => rfl
  | cons c0 cs0 =>
    simp only [List.isEmpty_cons, if_neg]
    rw [lookupCache_buildAliases]
    rfl

/-- When the default-child fallback yields an effective target, the
dispatcher continues with exactly that target. -/
theorem dispatch_effective (confAssigned : Bool) (x cmd e : Cmd)
    (args : List String) (he : effectiveTarget cmd = some e) :
    dispatchResolved confAssigned x cmd args = afterTarget confAssigned x e args := by
  rw [effectiveTarget] at he
  rw [dispatchResolved]
  cases hc : cmd.Call with
  | true =>
    have hce : cmd = e := by rw [if_pos hc] at he; exact Option.some_inj.mp he
    subst hce
    simp
  | false =>
    rw [if_neg (by simp [hc])] at he
    rw [if_neg (by simp [hc])]
    cases hcs : cmd.Commands with
    | nil => rw [hcs] at he; simp at he
    | cons f rest =>
      rw [hcs] at he
      dsimp only at he ⊢
      cases hf : f.Call with
      | true =>
        rw [if_pos hf] at he
        have hfe : f = e := Option.some_inj.mp he
        subst hfe
        simp
      | false =>
        rw [if_neg (by simp [hf])] at he
        simp at he

/-- Claim C1, evaluated at the failing input.  `Run` rebuilds the alias
cache only for the invocation root, so in the run state `Seek` fails to
resolve the alias `z` of the grandchild `gz`: the token sequence
`[sub, z]` fully matches a path of child names/aliases, yet `Seek`
stops at `sub` with residual `[z]` instead of returning `gz` with an
empty residual. -/
theorem c1_seek_alias_below_root :
    c1top.Commands = [c1sub] ∧ c1sub.Commands = [c1gz] ∧
    c1gz.Aliases = [("z")] ∧
    (Cmd.Seek (c1top.cacheAliases) [("sub"), ("z")]).1.Name = ("sub") ∧
    (Cmd.Seek (c1top.cacheAliases) [("sub"), ("z")]).2 = [("z")] ∧
    (Cmd.Seek (c1sub.cacheAliases) [("z")]).1.Name = ("gz") :=
  ⟨rfl, rfl, rfl, rfl, rfl, rfl⟩

/-- Claim C2 (amended): on a node whose alias cache has just been
rebuilt, `Resolve` returns the first-declared child whose `Name`
matches; when no child name matches, it returns the LAST-declared child
carrying the name as an alias, because later `cacheAliases` map writes
overwrite earlier siblings. -/
theorem c2_resolve_first_name_last_alias (x : Cmd) (n : String) :
    (∀ c, x.Commands.find? (fun c => c.Name == n) = some c →
        (x.cacheAliases).Resolve n = some c) ∧
    (x.Commands.find? (fun c => c.Name == n) = none →
        (x.cacheAliases).Resolve n = lastAliased n x.Commands) := by
  constructor
  · intro c hf
    rw [Resolve_cacheAliases, hf]
  · intro hf
    rw [Resolve_cacheAliases, hf]

/-- Claim C2, refuted as stated: with two siblings declaring the same
alias `x`, `Resolve` after `cacheAliases` returns the SECOND-declared
child, not the first-declared one the claim promises. -/
theorem c2_counterexample :
    c2root.Commands = [c2one, c2two] ∧
    containsStr c2one.Aliases ("x") = true ∧
    containsStr c2two.Aliases ("x") = true ∧
    Option.map Cmd.Name ((c2root.cacheAliases).Resolve ("x")) = some ("two") ∧
    Option.map Cmd.Name ((c2root.cacheAliases).Resolve ("x")) ≠ some ("one") :=
  ⟨rfl, rfl, rfl, rfl, by decide⟩

/-- Witness for C2's amended theorem at a concrete node: an exact name
resolves to the first-declared match, and an alias with no name match
resolves to the last-declared alias carrier. -/
theorem c2_witness :
    c2wroot.Commands.find? (fun c => c.Name == ("kid")) = some c2wkid ∧
    (c2wroot.cacheAliases).Resolve ("kid") = some c2wkid ∧
    c2wroot.Commands.find? (fun c => c.Name == ("zz")) = none ∧
    (c2wroot.cacheAliases).Resolve ("zz") = lastAliased ("zz") c2wroot.Commands :=
  ⟨rfl,
   (c2_resolve_first_name_last_alias c2wroot ("kid")).1 c2wkid rfl,
   rfl,
   (c2_resolve_first_name_last_alias c2wroot ("zz")).2 rfl⟩

/-- Claim C3 (amended): expanding a registered shorthand `a ↦ ts` in an
invocation `[prog, a] ++ r` resolves exactly like the literal
invocation `[prog] ++ ts ++ r`, PROVIDED the leading literal token
(the head of `ts ++ r`) is not itself a registered shorthand — the
literal invocation passes through the same one-shot expansion step, so
an aliased leading literal token would be expanded again. -/
theorem c3_shorthand_expansion (al : List (String × List String)) (x : Cmd)
    (prog a : String) (ts r : List String)
    (h1 : lookupStrs a al = some ts)
    (h2 : ∀ t, (ts ++ r).head? = some t → lookupStrs t al = none) :
    runSeek al x (prog :: a :: r) = runSeek al x (prog :: (ts ++ r)):= by
  rw [runSeek, runSeek]
  rw [show expandAlias al (prog :: a :: r) = prog :: (ts ++ r) by
    rw [expandAlias, h1]]
  cases hts : ts ++ r with
  | nil => rfl
  | cons t tl =>
    have hn : lookupStrs t al = none := h2 t (by rw [hts]; rfl)
    simp only [expandAlias, hn]

/-- Witness for C3's amended theorem: `co --force` resolves exactly as
`checkout main --force` (target `main`, residual `[--force]`). -/
theorem c3_witness :
    lookupStrs ("co") c3al = some [("checkout"), ("main")] ∧
    runSeek c3al c3git [("git"), ("co"), ("--force")] =
      runSeek c3al c3git (("git") :: ([("checkout"), ("main")] ++ [("--force")])) ∧
    (runSeek c3al c3git [("git"), ("co"), ("--force")]).1.Name = ("main") ∧
    (runSeek c3al c3git [("git"), ("co"), ("--force")]).2 = [("--force")] :=
  ⟨rfl,
   c3_shorthand_expansion c3al c3git ("git") ("co")
     [("checkout"), ("main")] [("--force")] rfl
     (by intro t h; rw [show t = ("checkout") from by
           have := Option.some_inj.mp h; exact this.symm]; rfl),
   rfl, rfl⟩

/-- Claim C3, refuted as stated: `a` is registered with replacement
`[b]`, yet invoking `[p, a]` targets node `b` while the literal
invocation `[p, b]` targets node `c`, because the literal leading token
is expanded again by the same one-shot rewrite. -/
theorem c3_counterexample :
    lookupStrs ("a") c3xal = some [("b")] ∧
    (runSeek c3xal c3xroot [("p"), ("a")]).1.Name = ("b") ∧
    (runSeek c3xal c3xroot (("p") :: ([("b")] ++ []))).1.Name = ("c") ∧
    (runSeek c3xal c3xroot [("p"), ("a")]).1.Name ≠
      (runSeek c3xal c3xroot (("p") :: ([("b")] ++ []))).1.Name :=
  ⟨rfl, rfl, rfl, by decide⟩

/-- Claim C4: for an effective target with a Call, fewer residual
arguments than `MinArgs` exits with the usage error and status 1
without invoking the Method; with enough arguments and the
configuration gate passing, the Method is invoked with exactly the
residual arguments, in order. -/
theorem c4_minargs_gate (confAssigned : Bool) (x cmd e : Cmd)
    (args : List String) (he : effectiveTarget cmd = some e) :
    (args.length < e.MinArgs →
        dispatchResolved confAssigned x cmd args = .exitError (usageErrorMsg e) ∧
        exitStatus (dispatchResolved confAssigned x cmd args) = some 1) ∧
    (e.MinArgs ≤ args.length → (x.ReqConf = false ∨ confAssigned = true) →
        dispatchResolved confAssigned x cmd args = .called e.Name args) := by
  rw [dispatch_effective confAssigned x cmd e args he]
  constructor
  · intro hlt
    rw [afterTarget, if_pos hlt]
    exact ⟨rfl, rfl⟩
  · intro hge hcf
    rw [afterTarget, if_neg (Nat.not_lt.mpr hge)]
    have hb : (x.ReqConf && !confAssigned) = false := by
      cases hcf with
      | inl h => rw [h]; rfl
      | inr h => rw [h]; simp
    rw [if_neg (by rw [hb]; simp)]

/-- Witness for C4 at a concrete leaf (`minArgs = 2`): one residual
argument exits with the usage error; two are passed through verbatim. -/
theorem c4_witness :
    effectiveTarget c4leaf = some c4leaf ∧
    dispatchResolved true c4x c4leaf [("one")] =
      .exitError (usageErrorMsg c4leaf) ∧
    exitStatus (dispatchResolved true c4x c4leaf [("one")]) = some 1 ∧
    dispatchResolved true c4x c4leaf [("one"), ("two")] =
      .called (c4leaf.Name) [("one"), ("two")] :=
  ⟨rfl,
   ((c4_minargs_gate true c4x c4leaf c4leaf [("one")] rfl).1 (by decide)).1,
   ((c4_minargs_gate true c4x c4leaf c4leaf [("one")] rfl).1 (by decide)).2,
   (c4_minargs_gate true c4x c4leaf c4leaf [("one"), ("two")] rfl).2
     (by decide) (Or.inr rfl)⟩

/-- Claim C5 (amended): dispatching into a node with no action and no
children always exits with status 1 carrying the UNIMPLEMENTED error,
which names the invocation root — not the malformed-node usage error
the claim describes; that ERROR string only ever appears inside
inferred usage text. -/
theorem c5_unimplemented (confAssigned : Bool) (x cmd : Cmd)
    (args : List String) (h1 : cmd.Call = false) (h2 : cmd.Commands = []) :
    dispatchResolved confAssigned x cmd args =
      .exitError (unimplementedMsg x.Name) ∧
    exitStatus (dispatchResolved confAssigned x cmd args) = some 1 := by
  rw [dispatchResolved, if_neg (by rw [h1]; simp), h2]
  exact ⟨rfl, rfl⟩

/-- Witness for C5's amended theorem at a concrete malformed node. -/
theorem c5_witness :
    c5nil.Call = false ∧ c5nil.Commands = [] ∧
    dispatchResolved true c5x c5nil [("anything")] =
      .exitError (unimplementedMsg (c5x.Name)) ∧
    exitStatus (dispatchResolved true c5x c5nil [("anything")]) = some 1 :=
  ⟨rfl, rfl,
   (c5_unimplemented true c5x c5nil [("anything")] rfl rfl).1,
   (c5_unimplemented true c5x c5nil [("anything")] rfl rfl).2⟩

/-- Claim C5, refuted as stated: the node `nilnode` is exactly the
malformed kind the claim describes (its inferred usage is the
"neither Call nor Commands" ERROR string), yet dispatching into it
produces the unimplemented error naming the invocation root, not the
malformed-node usage error. -/
theorem c5_counterexample :
    c5nil.Call = false ∧ c5nil.Commands = [] ∧
    InferredUsage c5nil = "\x7bERROR: neither Call nor Commands defined\x7d" ∧
    dispatchResolved true c5x c5nil [("r")] =
      .exitError ("\"xroot\" has not yet been implemented") ∧
    dispatchResolved true c5x c5nil [("r")] ≠
      .exitError (usageErrorMsg c5nil) :=
  ⟨rfl, rfl, rfl, rfl, by decide⟩

/-- Claim C6 (amended): the configuration gate consults ONLY the
invoking root's `ReqConf` flag.  When the root requires configuration
and none is assigned, dispatch exits with the configuration-missing
error (naming the effective target) and status 1 before invoking the
action; when the root does not require it, the action is invoked even
if the effective target itself sets `ReqConf` and no configurer is
assigned. -/
theorem c6_reqconf_gate (confAssigned : Bool) (x cmd e : Cmd)
    (args : List String) (he : effectiveTarget cmd = some e)
    (hm : e.MinArgs ≤ args.length) :
    (x.ReqConf = true → confAssigned = false →
        dispatchResolved confAssigned x cmd args =
          .exitError (reqConfErrorMsg e.Name) ∧
        exitStatus (dispatchResolved confAssigned x cmd args) = some 1) ∧
    (x.ReqConf = false →
        dispatchResolved confAssigned x cmd args = .called e.Name args) := by
  rw [dispatch_effective confAssigned x cmd e args he]
  rw [afterTarget, if_neg (Nat.not_lt.mpr hm)]
  constructor
  · intro hr hcf
    rw [if_pos (by rw [hr, hcf]; rfl)]
    exact ⟨rfl, rfl⟩
  · intro hr
    rw [if_neg (by rw [hr]; simp)]

/-- Witness for C6's amended theorem: with the root's flag set and no
configurer, dispatch exits with the configuration-missing error naming
the effective target. -/
theorem c6_witness :
    c6wroot.ReqConf = true ∧
    dispatchResolved false c6wroot c6wchild [] =
      .exitError (reqConfErrorMsg (c6wchild.Name)) ∧
    exitStatus (dispatchResolved false c6wroot c6wchild []) = some 1 :=
  ⟨rfl,
   ((c6_reqconf_gate false c6wroot c6wchild c6wchild [] rfl (by decide)).1
      rfl rfl).1,
   ((c6_reqconf_gate false c6wroot c6wchild c6wchild [] rfl (by decide)).1
      rfl rfl).2⟩

/-- Claim C6, refuted as stated: the effective target `child` has
`ReqConf` set and no configurer is assigned, yet the dispatcher invokes
the action instead of producing the configuration-missing error,
because only the invoking root's flag is consulted. -/
theorem c6_counterexample :
    c6child.ReqConf = true ∧
    c6root.ReqConf = false ∧
    effectiveTarget c6child = some c6child ∧
    dispatchResolved false c6root c6child [] = .called ("child") [] ∧
    dispatchResolved false c6root c6child [] ≠
      .exitError (reqConfErrorMsg ("child")) :=
  ⟨rfl, rfl, rfl, rfl, by decide⟩

/-- Claim C7, evaluated at the failing input.  With a bare `[rootCmd]`
entry (`k = 0`) the real invocation arguments are DROPPED: `os.Args`
becomes just `[groot]`, losing `x`.  With `k = 1` prepended string the
real arguments are preserved, and an unmapped base name is the fatal
unmapped-multicall error. -/
theorem c7_multicall_eval :
    multicallRun c7table ("tool") [("x")] = .ok (c7root, [("groot")]) ∧
    [("groot")] ≠ [("groot"), ("x")] ∧
    multicallRun c7table ("tool2") [("x")] =
      .ok (c7root, [("groot"), ("pre"), ("x")]) ∧
    multicallRun c7table ("nope") [("x")] =
      .error ("unmapped multicall command: nope") :=
  ⟨rfl, by decide, rfl, rfl⟩

theorem containsStr_iff_mem (l : List String) (s : String) :
    containsStr l s = true ↔ s ∈ l := by
  induction l with
  | nil => simp [containsStr]
  | cons a rest ih =>
    rw [containsStr]
    by_cases h : a = s
    · simp [h]
    · have hb : (a == s) = false := by simpa using h
      simp only [hb, Bool.false_eq_true, if_false, ih, List.mem_cons]
      constructor
      · exact Or.inr
      · rintro (hh | hh)
        · exact absurd hh.symm h
        · exact hh

/-- Claim C8: standard completion without a completer override.  Zero
tokens yield exactly the node's own name; with tokens, a string is
suggested exactly when it is a visible (non-hidden) child name or a
param of the node and has the first token as a literal prefix. -/
theorem c8_standard_completion (x : Cmd) (h : x.Completer = false) :
    Standard x [] = some [x.Name] ∧
    ∀ a rest s, s ∈ (Standard x (a :: rest)).getD [] ↔
      ((s ∈ x.CmdNames ∨ s ∈ x.Params) ∧ s ∉ x.Hidden ∧
        strStartsWith s a = true) := by
  constructor
  · rw [Standard, if_neg (by rw [h]; simp)]
  · intro a rest s
    rw [Standard, if_neg (by rw [h]; simp)]
    simp only [Option.getD_some, List.mem_filter, List.mem_append]
    constructor
    · rintro ⟨⟨hmem, hhid⟩, hpre⟩
      refine ⟨hmem, ?_, hpre⟩
      intro habs
      rw [(containsStr_iff_mem x.Hidden s).mpr habs] at hhid
      exact absurd hhid (by simp)
    · rintro ⟨hmem, hhid, hpre⟩
      refine ⟨⟨hmem, ?_⟩, hpre⟩
      cases hcs : containsStr x.Hidden s with
      | false => rfl
      | true => exact absurd ((containsStr_iff_mem x.Hidden s).mp hcs) hhid

/-- Witness for C8: zero tokens complete to the root's own name; token
`b` suggests `build` and not `test`. -/
theorem c8_witness :
    c8root.Completer = false ∧
    Standard c8root [] = some [c8root.Name] ∧
    ("build") ∈ (Standard c8root [("b")]).getD [] ∧
    ¬ ("test") ∈ (Standard c8root [("b")]).getD [] :=
  ⟨rfl,
   (c8_standard_completion c8root rfl).1,
   ((c8_standard_completion c8root rfl).2 ("b") [] ("build")).mpr
     (by refine ⟨Or.inl ?_, ?_, rfl⟩ <;> decide),
   fun hmem =>
     absurd (((c8_standard_completion c8root rfl).2 ("b") [] ("test")).mp hmem)
       (by decide)⟩

/-- Claim C9 (amended): `ArgsFrom` splits the line into whitespace
fields and appends the explicit empty trailing token exactly when the
final character is the SPACE character `' '` — not any whitespace
character; a line ending in a tab or newline gets no boundary token. -/
theorem c9_argsfrom (line : String) :
    ArgsFrom line =
      goFields line ++
        (if line.toList.getLast? == some ' ' then [("")] else []) := by
  rw [ArgsFrom]
  by_cases hl : line = ""
  · subst hl
    rfl
  · rw [if_neg (by simpa using hl)]
    rcases Bool.eq_false_or_eq_true (line.toList.getLast? == some ' ') with h | h
    · rw [h]
      simp
    · rw [h]
      simp

/-- Claim C9, refuted as stated: the line `a` followed by a tab ends in
a whitespace character, so the claim requires the trailing empty token,
but `ArgsFrom` tests only for the space character and appends none. -/
theorem c9_counterexample :
    goIsSpace '\t' = true ∧
    ArgsFrom ("a\t") = [("a")] ∧
    argsFromClaim ("a\t") = [("a"), ("")] ∧
    ArgsFrom ("a\t") ≠ argsFromClaim ("a\t") :=
  ⟨rfl, rfl, rfl, by decide⟩

/-- Claim C10: with no configurer assigned, `Q` logs the diagnostic and
returns the empty string without forwarding any query or terminating;
with a configurer assigned, the dotted path is forwarded to it and its
answer returned verbatim. -/
theorem c10_q_without_conf :
    (∀ n pathStr q, Q none n pathStr q =
      ⟨"", some (reqConfErrorMsg n), none⟩) ∧
    (∀ f n pathStr q, Q (some f) n pathStr q =
      ⟨f (pathStr ++ "." ++ q), none, some (pathStr ++ "." ++ q)⟩) :=
  ⟨fun _ _ _ => rfl, fun _ _ _ _ => rfl⟩
